import Mathlib

/-!
# Verification of the reth snapshot-provider storage core

Shallow embedding of the snapshot provider layer
(`crates/storage/provider/src/providers/snapshot.rs`), the receipt RLP codec
(`crates/primitives/src/receipt.rs`), and — modelled from the spec, since the
nippy-jar container, cursor, builder and domain primitives are not part of the
given sources — the segment container, cursor protocol and typed column codecs.

Bytes are modelled as `List Nat`; machine integers as `Nat` with explicit
bounds where overflow matters.
-/

deriving instance DecidableEq for Except

/-! ## Minimal big-endian integer byte strings -/

/-- Little-endian base-256 digits with explicit fuel (structural recursion, so
that concrete evaluation reduces in the kernel); the fuel never runs out when
it is at least the number. -/
def natToLeBytesF : Nat → Nat → List Nat
  | _, 0 => []
  | 0, _+1 => []
  | f+1, n+1 => ((n+1) % 256) :: natToLeBytesF f ((n+1) / 256)

/-- Little-endian base-256 digits of a natural number, least significant first,
with no trailing zero digit (the empty list for zero). -/
def natToLeBytes (n : Nat) : List Nat := natToLeBytesF n n

theorem natToLeBytesF_stable :
    ∀ n f1 f2, n ≤ f1 → n ≤ f2 → natToLeBytesF f1 n = natToLeBytesF f2 n := by
  intro n
  induction n using Nat.strong_induction_on with
  | _ n ih =>
    intro f1 f2 h1 h2
    match n, f1, f2 with
    | 0, f1, f2 =>
      cases f1 <;> cases f2 <;> rfl
    | m+1, g1+1, g2+1 =>
      rw [natToLeBytesF, natToLeBytesF]
      have hq : (m+1) / 256 < m + 1 := Nat.div_lt_self (Nat.succ_pos _) (by decide)
      rw [ih ((m+1) / 256) hq g1 g2 (by omega) (by omega)]

theorem natToLeBytes_zero : natToLeBytes 0 = [] := rfl

theorem natToLeBytes_succ (m : Nat) :
    natToLeBytes (m+1) = ((m+1) % 256) :: natToLeBytes ((m+1) / 256) := by
  rw [natToLeBytes, natToLeBytesF]
  have hq : (m+1) / 256 < m + 1 := Nat.div_lt_self (Nat.succ_pos _) (by decide)
  rw [natToLeBytesF_stable ((m+1) / 256) m ((m+1) / 256) (by omega) (Nat.le_refl _)]
  rfl

/-- Value of a little-endian base-256 digit list. -/
def natFromLeBytes : List Nat → Nat
  | [] => 0
  | b :: bs => b + 256 * natFromLeBytes bs

/-- Minimal big-endian byte string of a natural number (empty for zero). -/
def natToBeBytes (n : Nat) : List Nat := (natToLeBytes n).reverse

/-- Value of a big-endian byte string. -/
def natFromBeBytes (l : List Nat) : Nat := natFromLeBytes l.reverse

theorem natFromLeBytes_natToLeBytes (n : Nat) :
    natFromLeBytes (natToLeBytes n) = n := by
  induction n using Nat.strong_induction_on with
  | _ n ih =>
    match n with
    | 0 => simp [natToLeBytes_zero, natFromLeBytes]
    | m+1 =>
      rw [natToLeBytes_succ, natFromLeBytes,
        ih ((m+1) / 256) (Nat.div_lt_self (Nat.succ_pos _) (by decide))]
      omega

theorem natFromBeBytes_natToBeBytes (n : Nat) :
    natFromBeBytes (natToBeBytes n) = n := by
  simp [natFromBeBytes, natToBeBytes, natFromLeBytes_natToLeBytes]

theorem natToLeBytes_eq_nil_iff (n : Nat) : natToLeBytes n = [] ↔ n = 0 := by
  match n with
  | 0 => simp [natToLeBytes_zero]
  | m+1 => simp [natToLeBytes_succ]

theorem natToBeBytes_eq_nil_iff (n : Nat) : natToBeBytes n = [] ↔ n = 0 := by
  simp [natToBeBytes, natToLeBytes_eq_nil_iff]

theorem natToLeBytes_getLast?_ne_zero (n : Nat) (hn : 0 < n) :
    ∀ d, (natToLeBytes n).getLast? = some d → d ≠ 0 := by
  induction n using Nat.strong_induction_on with
  | _ n ih =>
    match n with
    | 0 => omega
    | m+1 =>
      intro d hd
      rw [natToLeBytes_succ] at hd
      by_cases hq : (m+1) / 256 = 0
      · rw [hq] at hd
        simp [natToLeBytes_zero, List.getLast?] at hd
        have hlt : m + 1 < 256 := by
          rcases Nat.lt_or_ge (m+1) 256 with h | h
          · exact h
          · exact absurd hq (by
              have : 0 < (m+1) / 256 := Nat.div_pos h (by decide)
              omega)
        rw [Nat.mod_eq_of_lt hlt] at hd
        omega
      · have hne : natToLeBytes ((m+1) / 256) ≠ [] := by
          simp [natToLeBytes_eq_nil_iff, hq]
        obtain ⟨x, xs, hxs⟩ := List.exists_cons_of_ne_nil hne
        rw [hxs, List.getLast?_cons_cons, ← hxs] at hd
        exact ih ((m+1) / 256) (Nat.div_lt_self (Nat.succ_pos _) (by decide))
          (Nat.pos_of_ne_zero hq) d hd

theorem natToBeBytes_head?_ne_zero (n : Nat) (hn : 0 < n) :
    ∀ d, (natToBeBytes n).head? = some d → d ≠ 0 := by
  intro d hd
  rw [natToBeBytes, List.head?_reverse] at hd
  exact natToLeBytes_getLast?_ne_zero n hn d hd

theorem natToLeBytes_length_le (k : Nat) :
    ∀ n, n < 256 ^ k → (natToLeBytes n).length ≤ k := by
  induction k with
  | zero =>
    intro n hn
    have : n = 0 := by simpa using hn
    simp [this, natToLeBytes_zero]
  | succ k ih =>
    intro n hn
    match n with
    | 0 => simp [natToLeBytes_zero]
    | m+1 =>
      rw [natToLeBytes_succ]
      simp only [List.length_cons]
      have : (m+1) / 256 < 256 ^ k := by
        rw [Nat.div_lt_iff_lt_mul (by decide : 0 < 256)]
        calc m + 1 < 256 ^ (k+1) := hn
        _ = 256 ^ k * 256 := by rw [Nat.pow_succ]
      exact Nat.succ_le_succ (ih _ this)

theorem natToBeBytes_length_le (k n : Nat) (hn : n < 256 ^ k) :
    (natToBeBytes n).length ≤ k := by
  simpa [natToBeBytes] using natToLeBytes_length_le k n hn

/-! ## RLP primitives

Modelled from the spec: RLP/binary encoding of domain objects is an external
collaborator (an out-of-scope pluggable Encode/Decode capability per §1/§4.3);
the definitions below model the alloy_rlp header, byte-string, bool, integer
and list codecs that `crates/primitives/src/receipt.rs` composes. -/

/-- RLP decoding errors, modelled on the alloy_rlp error taxonomy. -/
inductive RlpErr where
  | inputTooShort
  | nonCanonical
  | leadingZero
  | unexpectedString
  | unexpectedList
  | unexpectedLength
  | overflow
  | listLengthMismatch
  | invalidValue
  | fuel
  deriving DecidableEq


/-- First byte offset of a short-form RLP header: 0xc0 for lists, 0x80 for strings. -/
def rlpShortTag : Bool → Nat
  | true => 0xc0
  | false => 0x80

/-- First byte offset of a long-form RLP header: 0xf7 for lists, 0xb7 for strings. -/
def rlpLongTag : Bool → Nat
  | true => 0xf7
  | false => 0xb7

/-- Modelled from the spec: RLP item header encoding (alloy_rlp Header::encode):
short form for payloads under 56 bytes, long form with a minimal big-endian
length otherwise. -/
def rlpEncodeHeader (isList : Bool) (len : Nat) : List Nat :=
  if len < 56 then [rlpShortTag isList + len]
  else (rlpLongTag isList + (natToBeBytes len).length) :: natToBeBytes len

/-- Modelled from the spec: RLP item header decoding (alloy_rlp Header::decode),
including the canonicality checks: a single byte below 0x80 is its own payload,
a one-byte string payload must not have fit into the single-byte form, and long
forms must have a non-zero leading length byte and a length of at least 56. -/
def rlpDecodeHeader : List Nat → Except RlpErr (Bool × Nat × List Nat)
  | [] => .error .inputTooShort
  | b :: r =>
    if b < 0x80 then .ok (false, 1, b :: r)
    else if b ≤ 0xb7 then
      if b = 0x81 ∧ r.headD 0 < 0x80 then .error .nonCanonical
      else .ok (false, b - 0x80, r)
    else if b ≤ 0xbf then
      let ll := b - 0xb7
      if r.length < ll then .error .inputTooShort
      else if (r.take ll).head? = some 0 then .error .leadingZero
      else
        let len := natFromBeBytes (r.take ll)
        if len < 56 then .error .nonCanonical
        else .ok (false, len, r.drop ll)
    else if b ≤ 0xf7 then .ok (true, b - 0xc0, r)
    else
      let ll := b - 0xf7
      if r.length < ll then .error .inputTooShort
      else if (r.take ll).head? = some 0 then .error .leadingZero
      else
        let len := natFromBeBytes (r.take ll)
        if len < 56 then .error .nonCanonical
        else .ok (true, len, r.drop ll)

theorem pow_256_8_eq : (256 : Nat) ^ 8 = 2 ^ 64 := by norm_num

theorem rlpDecodeHeader_frame (isList : Bool) (len : Nat) (rest : List Nat)
    (hsingle : isList = false → len = 1 → 0x80 ≤ rest.headD 0)
    (hbound : len < 2 ^ 64) :
    rlpDecodeHeader (rlpEncodeHeader isList len ++ rest) = .ok (isList, len, rest) := by
  by_cases hshort : len < 56
  · rw [rlpEncodeHeader, if_pos hshort]
    cases isList with
    | false =>
      rw [rlpShortTag, List.singleton_append, rlpDecodeHeader]
      rw [if_neg (by omega : ¬ (0x80 + len < 0x80)),
        if_pos (by omega : 0x80 + len ≤ 0xb7)]
      by_cases hone : len = 1
      · have hh := hsingle rfl hone
        rw [if_neg (by intro h; omega :
          ¬ (0x80 + len = 0x81 ∧ rest.headD 0 < 0x80))]
        simp [hone]
      · rw [if_neg (by intro h; omega :
          ¬ (0x80 + len = 0x81 ∧ rest.headD 0 < 0x80))]
        simp
    | true =>
      rw [rlpShortTag, List.singleton_append, rlpDecodeHeader]
      rw [if_neg (by omega : ¬ (0xc0 + len < 0x80)),
        if_neg (by omega : ¬ (0xc0 + len ≤ 0xb7)),
        if_neg (by omega : ¬ (0xc0 + len ≤ 0xbf)),
        if_pos (by omega : 0xc0 + len ≤ 0xf7)]
      simp
  · have hpos : 0 < len := by omega
    have hll1 : natToBeBytes len ≠ [] := by
      simp [natToBeBytes_eq_nil_iff]; omega
    have hll8 : (natToBeBytes len).length ≤ 8 := by
      apply natToBeBytes_length_le
      rw [pow_256_8_eq]; exact hbound
    have hllpos : 0 < (natToBeBytes len).length := List.length_pos.mpr hll1
    have htake : ((natToBeBytes len ++ rest).take (natToBeBytes len).length)
        = natToBeBytes len := List.take_left _ _
    have hdrop : ((natToBeBytes len ++ rest).drop (natToBeBytes len).length)
        = rest := List.drop_left _ _
    have hhead : ¬ (((natToBeBytes len ++ rest).take (natToBeBytes len).length).head?
        = some 0) := by
      rw [htake]
      intro h
      exact natToBeBytes_head?_ne_zero len hpos 0 h rfl
    have hlen2 : ¬ ((natToBeBytes len ++ rest).length < (natToBeBytes len).length) := by
      simp
    have hval : natFromBeBytes ((natToBeBytes len ++ rest).take
        (natToBeBytes len).length) = len := by
      rw [htake, natFromBeBytes_natToBeBytes]
    rw [rlpEncodeHeader, if_neg hshort]
    cases isList with
    | false =>
      rw [rlpLongTag, List.cons_append, rlpDecodeHeader]
      rw [if_neg (by omega : ¬ (0xb7 + (natToBeBytes len).length < 0x80)),
        if_neg (by omega : ¬ (0xb7 + (natToBeBytes len).length ≤ 0xb7)),
        if_pos (by omega : 0xb7 + (natToBeBytes len).length ≤ 0xbf)]
      have hsub : 0xb7 + (natToBeBytes len).length - 0xb7
          = (natToBeBytes len).length := by omega
      simp only [hsub]
      rw [if_neg hlen2, if_neg hhead]
      simp only [hval]
      rw [if_neg (by omega : ¬ (len < 56)), hdrop]
    | true =>
      rw [rlpLongTag, List.cons_append, rlpDecodeHeader]
      rw [if_neg (by omega : ¬ (0xf7 + (natToBeBytes len).length < 0x80)),
        if_neg (by omega : ¬ (0xf7 + (natToBeBytes len).length ≤ 0xb7)),
        if_neg (by omega : ¬ (0xf7 + (natToBeBytes len).length ≤ 0xbf)),
        if_neg (by omega : ¬ (0xf7 + (natToBeBytes len).length ≤ 0xf7))]
      have hsub : 0xf7 + (natToBeBytes len).length - 0xf7
          = (natToBeBytes len).length := by omega
      simp only [hsub]
      rw [if_neg hlen2, if_neg hhead]
      simp only [hval]
      rw [if_neg (by omega : ¬ (len < 56)), hdrop]

/-- Modelled from the spec: RLP byte-string encoding — a single byte below
0x80 encodes as itself, otherwise a string header followed by the bytes. -/
def rlpEncodeBytes (s : List Nat) : List Nat :=
  if s.length = 1 ∧ s.headD 0 < 0x80 then s
  else rlpEncodeHeader false s.length ++ s

/-- Modelled from the spec: RLP byte-string decoding — decode a string header
and take exactly the announced number of payload bytes. -/
def rlpDecodeBytes (buf : List Nat) : Except RlpErr (List Nat × List Nat) :=
  match rlpDecodeHeader buf with
  | .error e => .error e
  | .ok (true, _, _) => .error .unexpectedList
  | .ok (false, len, r) =>
    if r.length < len then .error .inputTooShort
    else .ok (r.take len, r.drop len)

theorem rlpDecodeBytes_frame (s rest : List Nat) (hs : s.length < 2 ^ 64) :
    rlpDecodeBytes (rlpEncodeBytes s ++ rest) = .ok (s, rest) := by
  by_cases hsb : s.length = 1 ∧ s.headD 0 < 0x80
  · obtain ⟨b, rfl⟩ := List.length_eq_one.mp hsb.1
    have hb : b < 0x80 := by simpa using hsb.2
    rw [rlpEncodeBytes, if_pos hsb, List.singleton_append, rlpDecodeBytes,
      rlpDecodeHeader, if_pos hb]
    simp
  · rw [rlpEncodeBytes, if_neg hsb, List.append_assoc, rlpDecodeBytes,
      rlpDecodeHeader_frame false s.length (s ++ rest) ?hone hs]
    · have hlen : ¬ ((s ++ rest).length < s.length) := by simp
      simp [hlen, List.take_left, List.drop_left]
    · intro _ hone
      obtain ⟨b, rfl⟩ := List.length_eq_one.mp hone
      have hb : ¬ (b < 0x80) := by
        intro hlt
        exact hsb ⟨hone, by simpa using hlt⟩
      simpa using by omega

/-- Modelled from the spec: RLP encoding of a boolean (alloy_rlp): true is the
byte 0x01, false the empty-string code 0x80. -/
def rlpEncodeBool : Bool → List Nat
  | true => [0x01]
  | false => [0x80]

/-- Modelled from the spec: RLP decoding of a boolean (alloy_rlp). -/
def rlpDecodeBool : List Nat → Except RlpErr (Bool × List Nat)
  | 0x80 :: r => .ok (false, r)
  | 0x01 :: r => .ok (true, r)
  | _ => .error .invalidValue

theorem rlpDecodeBool_frame (b : Bool) (rest : List Nat) :
    rlpDecodeBool (rlpEncodeBool b ++ rest) = .ok (b, rest) := by
  cases b <;> rfl

/-- Modelled from the spec: RLP encoding of an unsigned 64-bit integer
(alloy_rlp): zero is 0x80, a single byte below 0x80 is itself, larger values
are a string header plus the minimal big-endian bytes. -/
def rlpEncodeU64 (n : Nat) : List Nat :=
  if n = 0 then [0x80]
  else if n < 0x80 then [n]
  else rlpEncodeHeader false (natToBeBytes n).length ++ natToBeBytes n

/-- Modelled from the spec: RLP decoding of an unsigned 64-bit integer
(alloy_rlp): a string of at most 8 bytes with no leading zero. -/
def rlpDecodeU64 (buf : List Nat) : Except RlpErr (Nat × List Nat) :=
  match rlpDecodeHeader buf with
  | .error e => .error e
  | .ok (true, _, _) => .error .unexpectedList
  | .ok (false, len, r) =>
    if 8 < len then .error .overflow
    else if r.length < len then .error .inputTooShort
    else if (r.take len).head? = some 0 then .error .leadingZero
    else .ok (natFromBeBytes (r.take len), r.drop len)

theorem natFromBeBytes_singleton (b : Nat) : natFromBeBytes [b] = b := by
  simp [natFromBeBytes, natFromLeBytes]

theorem rlpDecodeU64_frame (n : Nat) (rest : List Nat) (hn : n < 2 ^ 64) :
    rlpDecodeU64 (rlpEncodeU64 n ++ rest) = .ok (n, rest) := by
  by_cases h0 : n = 0
  · subst h0
    rw [rlpEncodeU64, if_pos rfl, List.singleton_append, rlpDecodeU64,
      rlpDecodeHeader, if_neg (by omega : ¬ (0x80 < 0x80)),
      if_pos (by omega : (0x80 : Nat) ≤ 0xb7),
      if_neg (by intro h; omega : ¬ ((0x80 : Nat) = 0x81 ∧ rest.headD 0 < 0x80))]
    simp [natFromBeBytes, natFromLeBytes]
  · by_cases hsmall : n < 0x80
    · rw [rlpEncodeU64, if_neg h0, if_pos hsmall, List.singleton_append,
        rlpDecodeU64, rlpDecodeHeader, if_pos hsmall]
      have h1 : ¬ (8 < 1) := by omega
      have h2 : ¬ ((n :: rest).length < 1) := by simp
      have h3 : ¬ (((n :: rest).take 1).head? = some 0) := by
        simp; omega
      simp [h1, h2, h3, natFromBeBytes_singleton]
      omega
    · have hpos : 0 < n := by omega
      have hll8 : (natToBeBytes n).length ≤ 8 := by
        apply natToBeBytes_length_le
        rw [pow_256_8_eq]; exact hn
      rw [rlpEncodeU64, if_neg h0, if_neg hsmall, List.append_assoc, rlpDecodeU64,
        rlpDecodeHeader_frame false (natToBeBytes n).length
          (natToBeBytes n ++ rest) ?hone (by omega)]
      · have h1 : ¬ (8 < (natToBeBytes n).length) := by omega
        have h2 : ¬ ((natToBeBytes n ++ rest).length < (natToBeBytes n).length) := by
          simp
        have h3 : ¬ (((natToBeBytes n ++ rest).take (natToBeBytes n).length).head?
            = some 0) := by
          rw [List.take_left]
          intro h
          exact natToBeBytes_head?_ne_zero n hpos 0 h rfl
        simp [h1, h2, h3, List.take_left, List.drop_left, natFromBeBytes_natToBeBytes]
        intro h
        exact natToBeBytes_head?_ne_zero n hpos 0 h rfl
      · intro _ hone
        obtain ⟨b, hb⟩ := List.length_eq_one.mp hone
        have hbn : b = n := by
          have := natFromBeBytes_natToBeBytes n
          rw [hb, natFromBeBytes_singleton] at this
          exact this
        rw [hb, hbn]
        simpa using by omega

/-- Modelled from the spec: payload of an RLP list — the concatenation of the
encodings of its elements. -/
def rlpListPayload (enc : α → List Nat) (xs : List α) : List Nat :=
  (xs.map enc).flatten

/-- Modelled from the spec: RLP list encoding — a list header over the payload. -/
def rlpEncodeList (enc : α → List Nat) (xs : List α) : List Nat :=
  rlpEncodeHeader true (rlpListPayload enc xs).length ++ rlpListPayload enc xs

/-- Modelled from the spec: decoding of consecutive RLP items until the region
is exhausted; fuel only serves termination, each item consumes at least one
byte. -/
def rlpDecodeItems (dec : List Nat → Except RlpErr (α × List Nat)) :
    Nat → List Nat → Except RlpErr (List α)
  | fuel, buf =>
    if buf = [] then .ok []
    else
      match fuel with
      | 0 => .error .fuel
      | f+1 =>
        match dec buf with
        | .error e => .error e
        | .ok (x, r1) =>
          match rlpDecodeItems dec f r1 with
          | .error e => .error e
          | .ok xs => .ok (x :: xs)

/-- Modelled from the spec: RLP list decoding (alloy_rlp Vec::decode) — decode
a list header, then decode items from exactly the announced payload region. -/
def rlpDecodeList (dec : List Nat → Except RlpErr (α × List Nat))
    (buf : List Nat) : Except RlpErr (List α × List Nat) :=
  match rlpDecodeHeader buf with
  | .error e => .error e
  | .ok (false, _, _) => .error .unexpectedString
  | .ok (true, len, r) =>
    if r.length < len then .error .inputTooShort
    else
      match rlpDecodeItems dec len (r.take len) with
      | .error e => .error e
      | .ok xs => .ok (xs, r.drop len)

theorem rlpListPayload_nil (enc : α → List Nat) : rlpListPayload enc [] = [] := by
  simp [rlpListPayload]

theorem rlpListPayload_cons (enc : α → List Nat) (x : α) (xs : List α) :
    rlpListPayload enc (x :: xs) = enc x ++ rlpListPayload enc xs := by
  simp [rlpListPayload]

theorem rlpDecodeItems_frame {α : Type} (dec : List Nat → Except RlpErr (α × List Nat))
    (enc : α → List Nat) (P : α → Prop)
    (hframe : ∀ x rest, P x → dec (enc x ++ rest) = .ok (x, rest))
    (hpos : ∀ x, P x → 0 < (enc x).length) :
    ∀ (xs : List α), (∀ x ∈ xs, P x) →
      ∀ fuel, (rlpListPayload enc xs).length ≤ fuel →
        rlpDecodeItems dec fuel (rlpListPayload enc xs) = .ok xs := by
  intro xs
  induction xs with
  | nil =>
    intro _ fuel _
    rw [rlpListPayload_nil, rlpDecodeItems.eq_def]
    simp
  | cons x xs ih =>
    intro hP fuel hfuel
    have hx : P x := hP x (List.mem_cons_self x xs)
    have hxpos := hpos x hx
    rw [rlpListPayload_cons] at hfuel ⊢
    have hne : ¬ (enc x ++ rlpListPayload enc xs = []) := by
      intro h
      rw [List.append_eq_nil] at h
      have := h.1
      simp [this] at hxpos
    have hflen : 0 < fuel := by
      rw [List.length_append] at hfuel
      omega
    obtain ⟨f, rfl⟩ : ∃ f, fuel = f + 1 := ⟨fuel - 1, by omega⟩
    rw [rlpDecodeItems.eq_def]
    simp only [if_neg hne, hframe x _ hx,
      ih (fun y hy => hP y (List.mem_cons_of_mem x hy)) f (by
        rw [List.length_append] at hfuel
        omega)]

theorem rlpDecodeList_frame {α : Type} (dec : List Nat → Except RlpErr (α × List Nat))
    (enc : α → List Nat) (P : α → Prop)
    (hframe : ∀ x rest, P x → dec (enc x ++ rest) = .ok (x, rest))
    (hpos : ∀ x, P x → 0 < (enc x).length)
    (xs : List α) (rest : List Nat) (hxs : ∀ x ∈ xs, P x)
    (hlen : (rlpListPayload enc xs).length < 2 ^ 64) :
    rlpDecodeList dec (rlpEncodeList enc xs ++ rest) = .ok (xs, rest) := by
  rw [rlpEncodeList, List.append_assoc, rlpDecodeList,
    rlpDecodeHeader_frame true _ _ (fun h => nomatch h) hlen]
  have h1 : ¬ ((rlpListPayload enc xs ++ rest).length < (rlpListPayload enc xs).length) := by
    simp
  simp only [if_neg h1, List.take_left, List.drop_left,
    rlpDecodeItems_frame dec enc P hframe hpos xs hxs (rlpListPayload enc xs).length
      (Nat.le_refl _)]

/-- Modelled from the spec: RLP decoding of a fixed-size byte string such as a
hash, address or bloom (alloy_rlp FixedBytes) — a string whose payload length
must equal the expected size. -/
def rlpDecodeFixed (k : Nat) (buf : List Nat) : Except RlpErr (List Nat × List Nat) :=
  match rlpDecodeBytes buf with
  | .error e => .error e
  | .ok (s, r) => if s.length = k then .ok (s, r) else .error .unexpectedLength

theorem rlpDecodeFixed_frame (k : Nat) (s rest : List Nat) (hk : s.length = k)
    (hs : s.length < 2 ^ 64) :
    rlpDecodeFixed k (rlpEncodeBytes s ++ rest) = .ok (s, rest) := by
  rw [rlpDecodeFixed, rlpDecodeBytes_frame s rest hs]
  simp [hk]

theorem length_le_rlpEncodeBytes (s : List Nat) :
    s.length ≤ (rlpEncodeBytes s).length := by
  rw [rlpEncodeBytes]
  by_cases h : s.length = 1 ∧ s.headD 0 < 0x80
  · rw [if_pos h]
  · rw [if_neg h, List.length_append]
    omega

theorem rlpEncodeBytes_length_pos (s : List Nat) :
    0 < (rlpEncodeBytes s).length := by
  rw [rlpEncodeBytes]
  by_cases h : s.length = 1 ∧ s.headD 0 < 0x80
  · rw [if_pos h]
    omega
  · rw [if_neg h, List.length_append, rlpEncodeHeader]
    by_cases h2 : s.length < 56
    · rw [if_pos h2]
      simp
    · rw [if_neg h2]
      simp

theorem payload_le_rlpEncodeList (enc : α → List Nat) (xs : List α) :
    (rlpListPayload enc xs).length ≤ (rlpEncodeList enc xs).length := by
  rw [rlpEncodeList, List.length_append]
  omega

theorem mem_le_rlpListPayload (enc : α → List Nat) (xs : List α) (x : α)
    (hx : x ∈ xs) : (enc x).length ≤ (rlpListPayload enc xs).length := by
  induction xs with
  | nil => cases hx
  | cons y ys ih =>
    rw [rlpListPayload_cons, List.length_append]
    rcases List.mem_cons.mp hx with h | h
    · subst h
      omega
    · have := ih h
      omega

/-! ## Receipt domain model (crates/primitives/src/receipt.rs) -/

/-- Transaction type tag (reth_primitives TxType, the variants receipt.rs
dispatches on). -/
inductive TxType where
  | legacy
  | eip2930
  | eip1559
  | eip4844
  deriving DecidableEq

/-- Log entry (alloy primitives Log: address, topics, data) as stored in a
receipt; byte strings are lists, the fixed sizes are tracked as properties. -/
structure Log where
  address : List Nat
  topics : List (List Nat)
  data : List Nat
  deriving DecidableEq

/-- Receipt containing result of transaction execution (receipt.rs Receipt). -/
structure Receipt where
  txType : TxType
  success : Bool
  cumulativeGasUsed : Nat
  logs : List Log
  deriving DecidableEq

/-- Receipt with calculated bloom filter (receipt.rs ReceiptWithBloom). -/
structure ReceiptWithBloom where
  bloom : List Nat
  receipt : Receipt
  deriving DecidableEq

/-- Modelled from the spec: RLP payload of a log — address, topics list, data. -/
def rlpEncodeLogPayload (l : Log) : List Nat :=
  rlpEncodeBytes l.address ++ rlpEncodeList rlpEncodeBytes l.topics ++ rlpEncodeBytes l.data

/-- Modelled from the spec: RLP encoding of a log — list header over its payload. -/
def rlpEncodeLog (l : Log) : List Nat :=
  rlpEncodeHeader true (rlpEncodeLogPayload l).length ++ rlpEncodeLogPayload l

/-- Modelled from the spec: RLP decoding of a log (alloy derived RlpDecodable):
list header, then address, topics and data decoded from exactly the payload
region, which must be fully consumed. -/
def rlpDecodeLog (buf : List Nat) : Except RlpErr (Log × List Nat) :=
  match rlpDecodeHeader buf with
  | .error e => .error e
  | .ok (false, _, _) => .error .unexpectedString
  | .ok (true, plen, r) =>
    if r.length < plen then .error .inputTooShort
    else
      match rlpDecodeFixed 20 (r.take plen) with
      | .error e => .error e
      | .ok (addr, r1) =>
        match rlpDecodeList (rlpDecodeFixed 32) r1 with
        | .error e => .error e
        | .ok (tps, r2) =>
          match rlpDecodeBytes r2 with
          | .error e => .error e
          | .ok (dat, r3) =>
            if r3 = [] then .ok (⟨addr, tps, dat⟩, r.drop plen)
            else .error .listLengthMismatch

/-- Well-formedness of a log as a value of the Rust types: a 20-byte address,
32-byte topics, and a payload encodable within usize. -/
def WFLog (l : Log) : Prop :=
  l.address.length = 20 ∧ (∀ t ∈ l.topics, t.length = 32) ∧
    (rlpEncodeLogPayload l).length < 2 ^ 64

theorem rlpEncodeHeader_length_pos (isList : Bool) (len : Nat) :
    0 < (rlpEncodeHeader isList len).length := by
  rw [rlpEncodeHeader]
  by_cases h : len < 56
  · rw [if_pos h]
    simp
  · rw [if_neg h]
    simp

theorem rlpEncodeLog_length_pos (l : Log) : 0 < (rlpEncodeLog l).length := by
  rw [rlpEncodeLog, List.length_append]
  have := rlpEncodeHeader_length_pos true (rlpEncodeLogPayload l).length
  omega

theorem rlpDecodeLog_frame (l : Log) (rest : List Nat) (hwf : WFLog l) :
    rlpDecodeLog (rlpEncodeLog l ++ rest) = .ok (l, rest) := by
  obtain ⟨haddr, htopics, hbound⟩ := hwf
  have htplen : (rlpListPayload rlpEncodeBytes l.topics).length < 2 ^ 64 := by
    have h1 := payload_le_rlpEncodeList rlpEncodeBytes l.topics
    have h2 : (rlpEncodeList rlpEncodeBytes l.topics).length
        ≤ (rlpEncodeLogPayload l).length := by
      rw [rlpEncodeLogPayload, List.length_append, List.length_append]
      omega
    omega
  have hdlen : l.data.length < 2 ^ 64 := by
    have h1 := length_le_rlpEncodeBytes l.data
    have h2 : (rlpEncodeBytes l.data).length ≤ (rlpEncodeLogPayload l).length := by
      rw [rlpEncodeLogPayload, List.length_append, List.length_append]
      omega
    omega
  have hlen2 : ¬ ((rlpEncodeLogPayload l ++ rest).length
      < (rlpEncodeLogPayload l).length) := by simp
  have hfix : rlpDecodeFixed 20 (rlpEncodeLogPayload l)
      = .ok (l.address, rlpEncodeList rlpEncodeBytes l.topics ++ rlpEncodeBytes l.data) := by
    rw [rlpEncodeLogPayload, List.append_assoc]
    exact rlpDecodeFixed_frame 20 l.address _ haddr (by omega)
  have htps : rlpDecodeList (rlpDecodeFixed 32)
      (rlpEncodeList rlpEncodeBytes l.topics ++ rlpEncodeBytes l.data)
      = .ok (l.topics, rlpEncodeBytes l.data) := by
    refine rlpDecodeList_frame (rlpDecodeFixed 32) rlpEncodeBytes
      (fun t => t.length = 32) ?_ ?_ l.topics (rlpEncodeBytes l.data) htopics htplen
    · intro x r hx
      exact rlpDecodeFixed_frame 32 x r hx (by omega)
    · intro x _
      exact rlpEncodeBytes_length_pos x
  have hdat : rlpDecodeBytes (rlpEncodeBytes l.data) = .ok (l.data, []) := by
    have := rlpDecodeBytes_frame l.data [] hdlen
    simpa using this
  rw [rlpEncodeLog, List.append_assoc, rlpDecodeLog,
    rlpDecodeHeader_frame true _ _ (fun h => nomatch h) hbound]
  simp only [if_neg hlen2, List.take_left, List.drop_left, hfix, htps, hdat,
    if_true]

/-! ## Receipt RLP encoding and decoding, translated from receipt.rs -/

/-- The RLP list payload of the receipt fields, in the order written by
encode_fields in receipt.rs: success, cumulative gas used, bloom, logs. The
payload length computed by receipt_rlp_header equals its length, since each
collaborator's length() is the length of its encoding. -/
def receiptFieldsPayload (w : ReceiptWithBloom) : List Nat :=
  rlpEncodeBool w.receipt.success ++ rlpEncodeU64 w.receipt.cumulativeGasUsed ++
    rlpEncodeBytes w.bloom ++ rlpEncodeList rlpEncodeLog w.receipt.logs

/-- encode_fields in receipt.rs: the list header from receipt_rlp_header
followed by the four encoded fields. -/
def receiptEncodeFields (w : ReceiptWithBloom) : List Nat :=
  rlpEncodeHeader true (receiptFieldsPayload w).length ++ receiptFieldsPayload w

/-- The EIP-2718 type byte written by encode_inner for non-legacy receipts. -/
def txTypeByte : TxType → Nat
  | .legacy => 0
  | .eip2930 => 0x01
  | .eip1559 => 0x02
  | .eip4844 => 0x03

/-- encode_inner in receipt.rs: a legacy receipt is the bare field list; a
typed receipt is the type byte plus the field list, wrapped in an RLP string
header when with_header is set. -/
def receiptEncodeInner (w : ReceiptWithBloom) (withHeader : Bool) : List Nat :=
  match w.receipt.txType with
  | .legacy => receiptEncodeFields w
  | t =>
    (if withHeader then rlpEncodeHeader false ((receiptEncodeFields w).length + 1)
     else []) ++ txTypeByte t :: receiptEncodeFields w

/-- Encodable::encode for ReceiptWithBloom in receipt.rs: encode_inner with the
header. -/
def rlpEncodeReceipt (w : ReceiptWithBloom) : List Nat :=
  receiptEncodeInner w true

/-- decode_receipt in receipt.rs: decode a list header, then success,
cumulative gas used, bloom and logs, and require that exactly payload_length
bytes were consumed. -/
def decodeReceiptPayload (t : TxType) (buf : List Nat) :
    Except RlpErr (ReceiptWithBloom × List Nat) :=
  match rlpDecodeHeader buf with
  | .error e => .error e
  | .ok (false, _, _) => .error .unexpectedString
  | .ok (true, plen, b) =>
    match rlpDecodeBool b with
    | .error e => .error e
    | .ok (succ, b1) =>
      match rlpDecodeU64 b1 with
      | .error e => .error e
      | .ok (gas, b2) =>
        match rlpDecodeFixed 256 b2 with
        | .error e => .error e
        | .ok (bloom, b3) =>
          match rlpDecodeList rlpDecodeLog b3 with
          | .error e => .error e
          | .ok (lgs, b4) =>
            if b.length - b4.length = plen then
              .ok (⟨bloom, ⟨t, succ, gas, lgs⟩⟩, b4)
            else .error .listLengthMismatch

/-- Decodable::decode for ReceiptWithBloom in receipt.rs: dispatch on the first
byte — below the empty-list code 0xc0 a typed receipt (strip the string
header, read the type byte, then decode the payload), equal to 0xc0 an error,
above it a legacy receipt list. -/
def rlpDecodeReceipt (buf : List Nat) : Except RlpErr (ReceiptWithBloom × List Nat) :=
  match buf.head? with
  | none => .error .invalidValue
  | some b =>
    if b < 0xc0 then
      match rlpDecodeHeader buf with
      | .error e => .error e
      | .ok (_, _, r) =>
        match r with
        | [] => .error .invalidValue
        | rb :: r2 =>
          if rb = 0x01 then decodeReceiptPayload .eip2930 r2
          else if rb = 0x02 then decodeReceiptPayload .eip1559 r2
          else if rb = 0x03 then decodeReceiptPayload .eip4844 r2
          else .error .invalidValue
    else if b = 0xc0 then .error .invalidValue
    else decodeReceiptPayload .legacy buf

/-- Well-formedness of a receipt-with-bloom as a value of the Rust types: a
256-byte bloom, a 64-bit gas counter, valid logs, and an encoding that fits
within usize. -/
def WFReceipt (w : ReceiptWithBloom) : Prop :=
  w.bloom.length = 256 ∧ w.receipt.cumulativeGasUsed < 2 ^ 64 ∧
    (∀ l ∈ w.receipt.logs, l.address.length = 20 ∧ ∀ t ∈ l.topics, t.length = 32) ∧
    (receiptEncodeFields w).length + 1 < 2 ^ 64

theorem payload_le_rlpEncodeLog (l : Log) :
    (rlpEncodeLogPayload l).length ≤ (rlpEncodeLog l).length := by
  rw [rlpEncodeLog, List.length_append]
  omega

theorem decodeReceiptPayload_frame (w : ReceiptWithBloom) (rest : List Nat)
    (hwf : WFReceipt w) :
    decodeReceiptPayload w.receipt.txType (receiptEncodeFields w ++ rest)
      = .ok (w, rest) := by
  obtain ⟨hbloom, hgas, hlogs, hsize⟩ := hwf
  have hpl : (receiptFieldsPayload w).length < 2 ^ 64 := by
    rw [receiptEncodeFields, List.length_append] at hsize
    omega
  have hllen : (rlpListPayload rlpEncodeLog w.receipt.logs).length < 2 ^ 64 := by
    have h1 := payload_le_rlpEncodeList rlpEncodeLog w.receipt.logs
    have h2 : (rlpEncodeList rlpEncodeLog w.receipt.logs).length
        ≤ (receiptFieldsPayload w).length := by
      rw [receiptFieldsPayload]
      simp [List.length_append]
      omega
    omega
  have hwflogs : ∀ l ∈ w.receipt.logs, WFLog l := by
    intro l hl
    refine ⟨(hlogs l hl).1, (hlogs l hl).2, ?_⟩
    have h1 := payload_le_rlpEncodeLog l
    have h2 := mem_le_rlpListPayload rlpEncodeLog w.receipt.logs l hl
    omega
  have hb := rlpDecodeBool_frame w.receipt.success
    (rlpEncodeU64 w.receipt.cumulativeGasUsed ++ (rlpEncodeBytes w.bloom ++
      (rlpEncodeList rlpEncodeLog w.receipt.logs ++ rest)))
  have hu := rlpDecodeU64_frame w.receipt.cumulativeGasUsed
    (rlpEncodeBytes w.bloom ++ (rlpEncodeList rlpEncodeLog w.receipt.logs ++ rest))
    hgas
  have hbl := rlpDecodeFixed_frame 256 w.bloom
    (rlpEncodeList rlpEncodeLog w.receipt.logs ++ rest) hbloom (by omega)
  have hlg := rlpDecodeList_frame rlpDecodeLog rlpEncodeLog WFLog
    (fun x r hx => rlpDecodeLog_frame x r hx)
    (fun x _ => rlpEncodeLog_length_pos x)
    w.receipt.logs rest hwflogs hllen
  have hcons : (receiptFieldsPayload w ++ rest).length - rest.length
      = (receiptFieldsPayload w).length := by
    rw [List.length_append]
    omega
  rw [receiptEncodeFields, List.append_assoc, decodeReceiptPayload,
    rlpDecodeHeader_frame true _ _ (fun h => nomatch h) hpl]
  simp only [receiptFieldsPayload, List.append_assoc, hb, hu, hbl, hlg]
  rw [← List.append_assoc, ← List.append_assoc, ← List.append_assoc,
    ← receiptFieldsPayload, hcons]
  simp
  rw [receiptFieldsPayload]
  simp [List.length_append]

theorem rlpEncodeBool_length (b : Bool) : (rlpEncodeBool b).length = 1 := by
  cases b <;> rfl

theorem receiptFieldsPayload_length_pos (w : ReceiptWithBloom) :
    0 < (receiptFieldsPayload w).length := by
  rw [receiptFieldsPayload]
  simp [List.length_append]
  have := rlpEncodeBool_length w.receipt.success
  omega

theorem receiptEncodeFields_length_pos (w : ReceiptWithBloom) :
    1 < (receiptEncodeFields w).length := by
  rw [receiptEncodeFields, List.length_append]
  have h1 := rlpEncodeHeader_length_pos true (receiptFieldsPayload w).length
  have h2 := receiptFieldsPayload_length_pos w
  omega

theorem rlpEncodeHeader_true_head (len : Nat) (hpos : 0 < len) :
    ∃ b l', rlpEncodeHeader true len = b :: l' ∧ 0xc0 < b := by
  rw [rlpEncodeHeader]
  by_cases h : len < 56
  · rw [if_pos h, rlpShortTag]
    exact ⟨0xc0 + len, [], rfl, by omega⟩
  · rw [if_neg h, rlpLongTag]
    refine ⟨0xf7 + (natToBeBytes len).length, natToBeBytes len, rfl, ?_⟩
    have : natToBeBytes len ≠ [] := by
      simp [natToBeBytes_eq_nil_iff]
      omega
    have := List.length_pos.mpr this
    omega

theorem rlpEncodeHeader_false_head (len : Nat) (hlen : len < 2 ^ 64) :
    ∃ b l', rlpEncodeHeader false len = b :: l' ∧ b < 0xc0 := by
  rw [rlpEncodeHeader]
  by_cases h : len < 56
  · rw [if_pos h, rlpShortTag]
    exact ⟨0x80 + len, [], rfl, by omega⟩
  · rw [if_neg h, rlpLongTag]
    refine ⟨0xb7 + (natToBeBytes len).length, natToBeBytes len, rfl, ?_⟩
    have h8 : (natToBeBytes len).length ≤ 8 := by
      apply natToBeBytes_length_le
      rw [pow_256_8_eq]; exact hlen
    omega

theorem rlpDecodeReceipt_frame (w : ReceiptWithBloom) (rest : List Nat)
    (hwf : WFReceipt w) :
    rlpDecodeReceipt (rlpEncodeReceipt w ++ rest) = .ok (w, rest) := by
  have hsize := hwf.2.2.2
  have hfpos := receiptEncodeFields_length_pos w
  have hppos := receiptFieldsPayload_length_pos w
  cases htx : w.receipt.txType with
  | legacy =>
    obtain ⟨b, l', hb, hbgt⟩ :=
      rlpEncodeHeader_true_head (receiptFieldsPayload w).length hppos
    have henc : rlpEncodeReceipt w ++ rest
        = b :: (l' ++ (receiptFieldsPayload w ++ rest)) := by
      rw [rlpEncodeReceipt, receiptEncodeInner, htx, receiptEncodeFields, hb]
      simp
    rw [henc, rlpDecodeReceipt]
    simp only [List.head?_cons]
    rw [if_neg (by omega : ¬ (b < 0xc0)), if_neg (by omega : ¬ (b = 0xc0))]
    have hback : b :: (l' ++ (receiptFieldsPayload w ++ rest))
        = receiptEncodeFields w ++ rest := by
      rw [receiptEncodeFields, hb]
      simp
    rw [hback, ← htx, decodeReceiptPayload_frame w rest hwf]
  | eip2930 =>
    obtain ⟨b, l', hb, hblt⟩ :=
      rlpEncodeHeader_false_head ((receiptEncodeFields w).length + 1) (by omega)
    have henc : rlpEncodeReceipt w ++ rest
        = b :: (l' ++ (txTypeByte .eip2930 :: (receiptEncodeFields w ++ rest))) := by
      rw [rlpEncodeReceipt, receiptEncodeInner, htx, if_pos rfl, hb]
      simp
    rw [henc, rlpDecodeReceipt]
    simp only [List.head?_cons]
    rw [if_pos hblt]
    have hhdr : rlpDecodeHeader
        (b :: (l' ++ (txTypeByte .eip2930 :: (receiptEncodeFields w ++ rest))))
        = .ok (false, (receiptEncodeFields w).length + 1,
            txTypeByte .eip2930 :: (receiptEncodeFields w ++ rest)) := by
      have := rlpDecodeHeader_frame false ((receiptEncodeFields w).length + 1)
        (txTypeByte .eip2930 :: (receiptEncodeFields w ++ rest))
        (fun _ h1 => absurd h1 (by omega)) (by omega)
      rw [hb] at this
      simpa using this
    rw [hhdr]
    simp only [txTypeByte, if_true]
    rw [← htx]
    exact decodeReceiptPayload_frame w rest hwf
  | eip1559 =>
    obtain ⟨b, l', hb, hblt⟩ :=
      rlpEncodeHeader_false_head ((receiptEncodeFields w).length + 1) (by omega)
    have henc : rlpEncodeReceipt w ++ rest
        = b :: (l' ++ (txTypeByte .eip1559 :: (receiptEncodeFields w ++ rest))) := by
      rw [rlpEncodeReceipt, receiptEncodeInner, htx, if_pos rfl, hb]
      simp
    rw [henc, rlpDecodeReceipt]
    simp only [List.head?_cons]
    rw [if_pos hblt]
    have hhdr : rlpDecodeHeader
        (b :: (l' ++ (txTypeByte .eip1559 :: (receiptEncodeFields w ++ rest))))
        = .ok (false, (receiptEncodeFields w).length + 1,
            txTypeByte .eip1559 :: (receiptEncodeFields w ++ rest)) := by
      have := rlpDecodeHeader_frame false ((receiptEncodeFields w).length + 1)
        (txTypeByte .eip1559 :: (receiptEncodeFields w ++ rest))
        (fun _ h1 => absurd h1 (by omega)) (by omega)
      rw [hb] at this
      simpa using this
    rw [hhdr]
    simp only [txTypeByte, if_true]
    rw [← htx]
    exact decodeReceiptPayload_frame w rest hwf
  | eip4844 =>
    obtain ⟨b, l', hb, hblt⟩ :=
      rlpEncodeHeader_false_head ((receiptEncodeFields w).length + 1) (by omega)
    have henc : rlpEncodeReceipt w ++ rest
        = b :: (l' ++ (txTypeByte .eip4844 :: (receiptEncodeFields w ++ rest))) := by
      rw [rlpEncodeReceipt, receiptEncodeInner, htx, if_pos rfl, hb]
      simp
    rw [henc, rlpDecodeReceipt]
    simp only [List.head?_cons]
    rw [if_pos hblt]
    have hhdr : rlpDecodeHeader
        (b :: (l' ++ (txTypeByte .eip4844 :: (receiptEncodeFields w ++ rest))))
        = .ok (false, (receiptEncodeFields w).length + 1,
            txTypeByte .eip4844 :: (receiptEncodeFields w ++ rest)) := by
      have := rlpDecodeHeader_frame false ((receiptEncodeFields w).length + 1)
        (txTypeByte .eip4844 :: (receiptEncodeFields w ++ rest))
        (fun _ h1 => absurd h1 (by omega)) (by omega)
      rw [hb] at this
      simpa using this
    rw [hhdr]
    simp only [txTypeByte, if_true]
    rw [← htx]
    exact decodeReceiptPayload_frame w rest hwf

/-! ## Compact codec for Receipt

Modelled from the spec: the Compact to_compact/from_compact capability of
reth_codecs, derived for Receipt by the main_codec attribute, is not among the
given sources; per §4.3 it is a stable compact byte representation whose
decode is the exact left inverse of encode. The concrete layout below is a
faithful such codec: type tag, status byte, then length-prefixed fields. -/

/-- Length-prefixed minimal big-endian encoding of a natural number. -/
def natEnc (n : Nat) : List Nat := (natToBeBytes n).length :: natToBeBytes n

/-- Decode a length-prefixed natural number. -/
def natDec : List Nat → Option (Nat × List Nat)
  | [] => none
  | len :: r =>
    if r.length < len then none
    else some (natFromBeBytes (r.take len), r.drop len)

theorem natDec_frame (n : Nat) (rest : List Nat) :
    natDec (natEnc n ++ rest) = some (n, rest) := by
  rw [natEnc, List.cons_append, natDec]
  have h1 : ¬ ((natToBeBytes n ++ rest).length < (natToBeBytes n).length) := by simp
  rw [if_neg h1, List.take_left, List.drop_left, natFromBeBytes_natToBeBytes]

/-- Length-prefixed byte string. -/
def bytesEnc (s : List Nat) : List Nat := s.length :: s

/-- Decode a length-prefixed byte string. -/
def bytesDec : List Nat → Option (List Nat × List Nat)
  | [] => none
  | len :: r =>
    if r.length < len then none
    else some (r.take len, r.drop len)

theorem bytesDec_frame (s rest : List Nat) :
    bytesDec (bytesEnc s ++ rest) = some (s, rest) := by
  rw [bytesEnc, List.cons_append, bytesDec]
  have h1 : ¬ ((s ++ rest).length < s.length) := by simp
  rw [if_neg h1, List.take_left, List.drop_left]

/-- Decode a counted sequence of length-prefixed byte strings. -/
def bytesListDec : Nat → List Nat → Option (List (List Nat) × List Nat)
  | 0, r => some ([], r)
  | k+1, r =>
    match bytesDec r with
    | none => none
    | some (t, r1) =>
      match bytesListDec k r1 with
      | none => none
      | some (ts, r2) => some (t :: ts, r2)

theorem bytesListDec_frame (ts : List (List Nat)) (rest : List Nat) :
    bytesListDec ts.length ((ts.map bytesEnc).flatten ++ rest) = some (ts, rest) := by
  induction ts generalizing rest with
  | nil => simp [bytesListDec]
  | cons t ts ih =>
    simp only [List.length_cons, List.map_cons, List.flatten_cons, List.append_assoc,
      bytesListDec, bytesDec_frame, ih]

/-- Status byte of the compact encoding. -/
def boolByte (b : Bool) : Nat := if b then 1 else 0

/-- Decode the status byte. -/
def boolByteDec (b : Nat) : Option Bool :=
  if b = 1 then some true else if b = 0 then some false else none

theorem boolByteDec_frame (b : Bool) : boolByteDec (boolByte b) = some b := by
  cases b <;> rfl

/-- Compact encoding of a log: length-prefixed address, counted topics,
length-prefixed data. -/
def logToCompact (l : Log) : List Nat :=
  bytesEnc l.address ++ ((natEnc l.topics.length ++ ((l.topics.map bytesEnc).flatten
    ++ bytesEnc l.data)))

/-- Compact decoding of a log. -/
def logFromCompact (buf : List Nat) : Option (Log × List Nat) :=
  match bytesDec buf with
  | none => none
  | some (addr, r1) =>
    match natDec r1 with
    | none => none
    | some (k, r2) =>
      match bytesListDec k r2 with
      | none => none
      | some (tps, r3) =>
        match bytesDec r3 with
        | none => none
        | some (dat, r4) => some (⟨addr, tps, dat⟩, r4)

theorem logFromCompact_frame (l : Log) (rest : List Nat) :
    logFromCompact (logToCompact l ++ rest) = some (l, rest) := by
  rw [logToCompact]
  simp only [List.append_assoc, logFromCompact, bytesDec_frame, natDec_frame,
    bytesListDec_frame]

/-- Decode a counted sequence of compact logs. -/
def logsListDec : Nat → List Nat → Option (List Log × List Nat)
  | 0, r => some ([], r)
  | k+1, r =>
    match logFromCompact r with
    | none => none
    | some (l, r1) =>
      match logsListDec k r1 with
      | none => none
      | some (ls, r2) => some (l :: ls, r2)

theorem logsListDec_frame (ls : List Log) (rest : List Nat) :
    logsListDec ls.length ((ls.map logToCompact).flatten ++ rest) = some (ls, rest) := by
  induction ls generalizing rest with
  | nil => simp [logsListDec]
  | cons l ls ih =>
    simp only [List.length_cons, List.map_cons, List.flatten_cons, List.append_assoc,
      logsListDec, logFromCompact_frame, ih]

/-- Modelled from the spec: to_compact for Receipt — type tag, status byte,
gas counter, then the counted logs. -/
def Receipt.toCompact (r : Receipt) : List Nat :=
  txTypeByte r.txType :: (boolByte r.success ::
    (natEnc r.cumulativeGasUsed ++ (natEnc r.logs.length
      ++ (r.logs.map logToCompact).flatten)))

/-- Decode a compact type tag back to a transaction type. -/
def codeToTxType (b : Nat) : Option TxType :=
  if b = 0 then some .legacy
  else if b = 1 then some .eip2930
  else if b = 2 then some .eip1559
  else if b = 3 then some .eip4844
  else none

theorem codeToTxType_frame (t : TxType) : codeToTxType (txTypeByte t) = some t := by
  cases t <;> rfl

/-- Modelled from the spec: from_compact for Receipt, the exact left inverse
of Receipt.toCompact. -/
def Receipt.fromCompact (buf : List Nat) : Option (Receipt × List Nat) :=
  match buf with
  | [] => none
  | tb :: r0 =>
    match codeToTxType tb with
    | none => none
    | some t =>
      match r0 with
      | [] => none
      | sb :: r1 =>
        match boolByteDec sb with
        | none => none
        | some s =>
          match natDec r1 with
          | none => none
          | some (gas, r2) =>
            match natDec r2 with
            | none => none
            | some (k, r3) =>
              match logsListDec k r3 with
              | none => none
              | some (lgs, r4) => some (⟨t, s, gas, lgs⟩, r4)

theorem receipt_fromCompact_toCompact (r : Receipt) (rest : List Nat) :
    Receipt.fromCompact (Receipt.toCompact r ++ rest) = some (r, rest) := by
  rw [Receipt.toCompact]
  simp only [List.cons_append, List.append_assoc, Receipt.fromCompact,
    codeToTxType_frame, boolByteDec_frame, natDec_frame, logsListDec_frame]

/-! ## Domain primitives for the snapshot provider

Modelled from the spec: reth_primitives Header / TransactionSignedNoHash and
their Compact/Decompress codecs and canonical-hash functions are not among the
given sources. Per §4.3 and §6 each stored type carries an encode whose decode
is the exact left inverse, and a canonical-key function (the content hash
recomputed from a decoded value) used by providers to defeat collisions. -/

/-- Modelled from the spec: a block header value (number and difficulty are the
fields the snapshot test exercises). -/
structure Header where
  number : Nat
  difficulty : Nat
  deriving DecidableEq

/-- Modelled from the spec: compact column encoding of a header (§4.3). -/
def Header.encode (h : Header) : List Nat :=
  natEnc h.number ++ natEnc h.difficulty

/-- Modelled from the spec: Decompress impl for Header — the exact left
inverse of Header.encode, a hard decode error on malformed bytes. -/
def Header.decompress (bytes : List Nat) : Except RlpErr Header :=
  match natDec bytes with
  | none => .error .invalidValue
  | some (n, r1) =>
    match natDec r1 with
    | none => .error .invalidValue
    | some (d, r2) =>
      if r2 = [] then .ok ⟨n, d⟩ else .error .invalidValue

theorem header_decompress_encode (h : Header) :
    Header.decompress (Header.encode h) = .ok h := by
  rw [Header.encode]
  have h1 := natDec_frame h.number (natEnc h.difficulty)
  have h2 : natDec (natEnc h.difficulty ++ []) = some (h.difficulty, []) :=
    natDec_frame h.difficulty []
  rw [List.append_nil] at h2
  simp only [Header.decompress, h1, h2, if_true]

/-- Modelled from the spec: hash_slow — the canonical content hash of a header,
recomputed from the decoded value (a content-determined key, §6). -/
def Header.hashSlow (h : Header) : List Nat :=
  0xAA :: Header.encode h

/-- Modelled from the spec: the stored total-difficulty column value
(HeaderTD), a compact unsigned integer. -/
def tdEncode (td : Nat) : List Nat := natEnc td

/-- Modelled from the spec: Decompress impl for the total-difficulty column. -/
def tdDecompress (bytes : List Nat) : Except RlpErr Nat :=
  match natDec bytes with
  | none => .error .invalidValue
  | some (n, r) => if r = [] then .ok n else .error .invalidValue

theorem tdDecompress_encode (td : Nat) : tdDecompress (tdEncode td) = .ok td := by
  rw [tdEncode]
  have h1 : natDec (natEnc td ++ []) = some (td, []) := natDec_frame td []
  rw [List.append_nil] at h1
  simp only [tdDecompress, h1, if_true]

/-- Modelled from the spec: an unhashed signed transaction
(TransactionSignedNoHash). -/
structure Transaction where
  nonce : Nat
  payload : List Nat
  deriving DecidableEq

/-- Modelled from the spec: compact column encoding of a transaction (§4.3). -/
def Transaction.encode (t : Transaction) : List Nat :=
  natEnc t.nonce ++ bytesEnc t.payload

/-- Modelled from the spec: Decompress impl for TransactionSignedNoHash. -/
def Transaction.decompress (bytes : List Nat) : Except RlpErr Transaction :=
  match natDec bytes with
  | none => .error .invalidValue
  | some (n, r1) =>
    match bytesDec r1 with
    | none => .error .invalidValue
    | some (p, r2) =>
      if r2 = [] then .ok ⟨n, p⟩ else .error .invalidValue

theorem transaction_decompress_encode (t : Transaction) :
    Transaction.decompress (Transaction.encode t) = .ok t := by
  rw [Transaction.encode]
  have h1 := natDec_frame t.nonce (bytesEnc t.payload)
  have h2 : bytesDec (bytesEnc t.payload ++ []) = some (t.payload, []) :=
    bytesDec_frame t.payload []
  rw [List.append_nil] at h2
  simp only [Transaction.decompress, h1, h2, if_true]

/-- Modelled from the spec: the canonical transaction hash recomputed from the
decoded value (with_hash / tx.hash()). -/
def Transaction.hashSlow (t : Transaction) : List Nat :=
  0xBB :: Transaction.encode t

/-- Modelled from the spec: a signed transaction carrying its hash
(TransactionSigned); with_hash and the Into conversion fill the hash from the
canonical hash of the unhashed transaction. -/
structure TransactionSigned where
  transaction : Transaction
  hash : List Nat
  deriving DecidableEq

/-- The From conversion / with_hash: pair the transaction with its recomputed
canonical hash. -/
def Transaction.withHash (t : Transaction) : TransactionSigned :=
  ⟨t, Transaction.hashSlow t⟩

/-! ## Segment container and cursor

Modelled from the spec (§3, §4.1, §4.2): the nippy-jar segment container and
its cursor are not among the given sources; a loaded segment is immutable
(rows of per-column cells), carries the user header with the range bounds, an
approximate membership filter with no false negatives, and a perfect-hash
index valid only for keys present at build time. -/

/-- SegmentHeader (reth_primitives snapshot): block range and tx range bounds
of a segment. -/
structure SegmentHeader where
  blockStart : Nat
  blockEnd : Nat
  txStart : Nat
  txEnd : Nat
  deriving DecidableEq

/-- Modelled from the spec: a loaded, immutable nippy-jar segment — user
header, column count, rows of per-column raw cells, the membership filter
(possible-presence test) and the perfect-hash index (candidate row number,
meaningless for keys outside the build-time key set). -/
structure NippyJar where
  userHeader : SegmentHeader
  colCount : Nat
  rows : List (List (List Nat))
  filterContains : List Nat → Bool
  phfIndex : List Nat → Nat

/-- Project the cells of a row selected by a bitmask, in ascending column
order (§3 row selection bitmask). -/
def selectCols (mask : Nat) : List (List Nat) → Nat → List (List Nat)
  | [], _ => []
  | c :: cs, i =>
    if mask.testBit i then c :: selectCols mask cs (i+1) else selectCols mask cs (i+1)

/-- Cursor errors: a mask that does not fit the column count is a hard error
(§4.2 validates mask fits C). -/
inductive JarError where
  | wrongColumnCount
  | invalidMask
  deriving DecidableEq

/-- Modelled from the spec (§4.2 row_by_number): validate the expected column
count and the mask, return the selected cells of row i, or the empty result
(not an error) when the row index is at or beyond the row count M. -/
def rowByNumberWithCols (jar : NippyJar) (mask cols row : Nat) :
    Except JarError (Option (List (List Nat))) :=
  if cols ≠ jar.colCount then .error .wrongColumnCount
  else if 2 ^ cols ≤ mask then .error .invalidMask
  else
    match jar.rows.get? row with
    | none => .ok none
    | some r => .ok (some (selectCols mask r 0))

/-- Modelled from the spec (§4.2 row_by_key): query the filter first — on
definite absence return the empty result immediately; on possible presence
take the perfect-hash candidate row and delegate to row_by_number. -/
def rowByKeyWithCols (jar : NippyJar) (mask cols : Nat) (key : List Nat) :
    Except JarError (Option (List (List Nat))) :=
  if jar.filterContains key then
    rowByNumberWithCols jar mask cols (jar.phfIndex key)
  else .ok none

/-! ## Snapshot provider (crates/storage/provider/src/providers/snapshot.rs) -/

/-- Provider-level errors (ProviderError / RethError as used in snapshot.rs). -/
inductive RethError where
  | headerNotFound (n : Nat)
  | transactionNotFound (n : Nat)
  | jarError
  | codecError
  deriving DecidableEq

/-- Outcome of a provider call: ok, a propagated RethResult error, or an
abort — a panicking unwrap on a missing row or failed decode, an
unimplemented placeholder, or an underflowing unchecked u64 subtraction
(which aborts under the debug overflow semantics). -/
inductive RResult (α : Type) where
  | aborted
  | err (e : RethError)
  | ok (v : α)
  deriving DecidableEq

/-- Checked u64 subtraction: the unchecked Rust subtraction of snapshot.rs is
well defined exactly when no underflow occurs. -/
def checkedSub (a b : Nat) : Option Nat :=
  if b ≤ a then some (a - b) else none

/-- SnapshotProvider of snapshot.rs: holds the loaded jar. -/
structure SnapshotProvider where
  jar : NippyJar

/-- HeaderProvider::header in snapshot.rs: row_by_key_with_cols with mask 0b01
over 2 columns, unwrap the row (twice), decode the header (unwrap), recompute
hash_slow and compare: on equality Ok(Some(header)), otherwise Ok(None). -/
def SnapshotProvider.header (p : SnapshotProvider) (blockHash : List Nat) :
    RResult (Option Header) :=
  match rowByKeyWithCols p.jar 0b01 2 blockHash with
  | .error _ => .aborted
  | .ok none => .aborted
  | .ok (some cells) =>
    match cells.head? with
    | none => .aborted
    | some c0 =>
      match Header.decompress c0 with
      | .error _ => .aborted
      | .ok h =>
        if Header.hashSlow h = blockHash then .ok (some h) else .ok none

/-- HeaderProvider::header_by_number in snapshot.rs: index num - block_start
into the row-by-number path (mask 0b01, 2 columns); a missing row becomes
Err(HeaderNotFound), a decode failure is propagated as an error. -/
def SnapshotProvider.headerByNumber (p : SnapshotProvider) (num : Nat) :
    RResult (Option Header) :=
  match checkedSub num p.jar.userHeader.blockStart with
  | none => .aborted
  | some idx =>
    match rowByNumberWithCols p.jar 0b01 2 idx with
    | .error _ => .err .jarError
    | .ok none => .err (.headerNotFound num)
    | .ok (some cells) =>
      match cells.head? with
      | none => .aborted
      | some c0 =>
        match Header.decompress c0 with
        | .error _ => .err .codecError
        | .ok h => .ok (some h)

/-- HeaderProvider::header_td in snapshot.rs: one keyed positioned read with
the two-column mask 0b11, unwrap the row, decode header and total difficulty
from the two cells, then the hash_slow comparison decides Some(td) or None. -/
def SnapshotProvider.headerTd (p : SnapshotProvider) (blockHash : List Nat) :
    RResult (Option Nat) :=
  match rowByKeyWithCols p.jar 0b11 2 blockHash with
  | .error _ => .aborted
  | .ok none => .aborted
  | .ok (some cells) =>
    match cells.head? with
    | none => .aborted
    | some c0 =>
      match Header.decompress c0 with
      | .error _ => .aborted
      | .ok h =>
        match cells[1]? with
        | none => .aborted
        | some c1 =>
          match tdDecompress c1 with
          | .error _ => .aborted
          | .ok td =>
            if Header.hashSlow h = blockHash then .ok (some td) else .ok none

/-- HeaderProvider::header_td_by_number in snapshot.rs: unimplemented!(), an
abort. -/
def SnapshotProvider.headerTdByNumber (_p : SnapshotProvider) (_num : Nat) :
    RResult (Option Nat) :=
  .aborted

/-- HeaderProvider::headers_range in snapshot.rs: unimplemented!(), an abort;
the range bounds are ignored. -/
def SnapshotProvider.headersRange (_p : SnapshotProvider) (_range : Nat × Nat) :
    RResult (List Header) :=
  .aborted

/-- TransactionsProvider::transaction_by_id in snapshot.rs: index
num - tx_start into the row-by-number path (mask 0b1, 1 column); a missing row
becomes Err(TransactionNotFound); the decoded transaction is converted into a
TransactionSigned carrying its recomputed hash. -/
def SnapshotProvider.transactionById (p : SnapshotProvider) (num : Nat) :
    RResult (Option TransactionSigned) :=
  match checkedSub num p.jar.userHeader.txStart with
  | none => .aborted
  | some idx =>
    match rowByNumberWithCols p.jar 0b1 1 idx with
    | .error _ => .err .jarError
    | .ok none => .err (.transactionNotFound num)
    | .ok (some cells) =>
      match cells.head? with
      | none => .aborted
      | some c0 =>
        match Transaction.decompress c0 with
        | .error _ => .err .codecError
        | .ok t => .ok (some (Transaction.withHash t))

/-- TransactionsProvider::transaction_by_hash in snapshot.rs: keyed lookup
(mask 0b1, 1 column), unwrap the row, decode (unwrap), with_hash, then compare
the recomputed hash with the queried one: Some(tx) on match, None otherwise. -/
def SnapshotProvider.transactionByHash (p : SnapshotProvider) (hash : List Nat) :
    RResult (Option TransactionSigned) :=
  match rowByKeyWithCols p.jar 0b1 1 hash with
  | .error _ => .aborted
  | .ok none => .aborted
  | .ok (some cells) =>
    match cells.head? with
    | none => .aborted
    | some c0 =>
      match Transaction.decompress c0 with
      | .error _ => .aborted
      | .ok t =>
        let tx := Transaction.withHash t
        if tx.hash = hash then .ok (some tx) else .ok none

/-! ## Built segments

Modelled from the spec (§4.4 and the test test_snap in snapshot.rs): the
builder inserts every build-time key into the filter and builds a minimal
perfect hash mapping each key of the exact key set to its row position;
duplicate keys fail the build, so built segments have pairwise-distinct keys. -/

/-- Membership in the build-time key set (the filter the builder constructs:
it never produces a false negative, and this exact-set model has no false
positives either; adversarial filters are modelled by arbitrary jars). -/
def memKey : List (List Nat) → List Nat → Bool
  | [], _ => false
  | k :: ks, key => if k = key then true else memKey ks key

/-- Row position of a key in the build-time key stream (the perfect hash:
for a key of the set, its unique position; for any other key, an arbitrary
number — here the list length). -/
def idxOfKey : List (List Nat) → List Nat → Nat
  | [], _ => 0
  | k :: ks, key => if k = key then 0 else idxOfKey ks key + 1

/-- Build-time key stream of a header segment: hash_slow of each header. -/
def headerKeys (hdrs : List (Header × Nat)) : List (List Nat) :=
  hdrs.map (fun p => Header.hashSlow p.1)

/-- Modelled from the spec: a header segment with two columns (encoded header,
encoded total difficulty), as created by create_snapshot_T1_T2 in test_snap. -/
def buildHeaderJar (hdrs : List (Header × Nat)) (sh : SegmentHeader) : NippyJar :=
  { userHeader := sh
    colCount := 2
    rows := hdrs.map (fun p => [Header.encode p.1, tdEncode p.2])
    filterContains := fun k => memKey (headerKeys hdrs) k
    phfIndex := fun k => idxOfKey (headerKeys hdrs) k }

/-- Build-time key stream of a transaction segment. -/
def txKeys (txs : List Transaction) : List (List Nat) :=
  txs.map Transaction.hashSlow

/-- Modelled from the spec: a transaction segment with one column. -/
def buildTxJar (txs : List Transaction) (sh : SegmentHeader) : NippyJar :=
  { userHeader := sh
    colCount := 1
    rows := txs.map (fun t => [Transaction.encode t])
    filterContains := fun k => memKey (txKeys txs) k
    phfIndex := fun k => idxOfKey (txKeys txs) k }

theorem memKey_of_mem (ks : List (List Nat)) (k : List Nat) (h : k ∈ ks) :
    memKey ks k = true := by
  induction ks with
  | nil => cases h
  | cons k0 ks ih =>
    rw [memKey]
    by_cases he : k0 = k
    · rw [if_pos he]
    · rw [if_neg he]
      rcases List.mem_cons.mp h with h1 | h1
      · exact absurd h1.symm he
      · exact ih h1

theorem build_lookup {α : Type} (rowf : α → List (List Nat))
    (keyf : α → List Nat) (xs : List α) (x : α) (hmem : x ∈ xs)
    (hnd : (xs.map keyf).Nodup) :
    (xs.map rowf).get? (idxOfKey (xs.map keyf) (keyf x)) = some (rowf x) := by
  induction xs with
  | nil => cases hmem
  | cons y ys ih =>
    simp only [List.map_cons, idxOfKey]
    have hnd2 := hnd
    rw [List.map_cons, List.nodup_cons] at hnd2
    by_cases he : keyf y = keyf x
    · rw [if_pos he]
      have hxy : x = y := by
        rcases List.mem_cons.mp hmem with h1 | h1
        · exact h1
        · exact absurd (he ▸ List.mem_map_of_mem keyf h1) hnd2.1
      rw [hxy]
      rfl
    · rw [if_neg he]
      have hxys : x ∈ ys := by
        rcases List.mem_cons.mp hmem with h1 | h1
        · exact absurd (h1 ▸ rfl) he
        · exact h1
      simpa using ih hxys hnd2.2

/-! ## Concrete segments used by the witnesses -/

/-- Two-row header segment contents: blocks 0 and 1 with total difficulties
5 and 12. -/
def hdrsW : List (Header × Nat) := [(⟨0, 5⟩, 5), (⟨1, 7⟩, 12)]

/-- Segment header for blocks and transactions 0..=1. -/
def shW : SegmentHeader := ⟨0, 1, 0, 1⟩

/-- Single-transaction segment contents. -/
def txsW : List Transaction := [⟨3, [7, 7]⟩]

/-- An adversarial two-column jar whose filter always answers possibly-present
and whose perfect hash always answers row 0: every lookup is a false
positive. -/
def jarFP : NippyJar :=
  { userHeader := ⟨0, 0, 0, 0⟩
    colCount := 2
    rows := [[Header.encode ⟨0, 5⟩, tdEncode 5]]
    filterContains := fun _ => true
    phfIndex := fun _ => 0 }

/-- The one-column transaction analogue of jarFP. -/
def jarFPtx : NippyJar :=
  { userHeader := ⟨0, 0, 0, 0⟩
    colCount := 1
    rows := [[Transaction.encode ⟨3, [7, 7]⟩]]
    filterContains := fun _ => true
    phfIndex := fun _ => 0 }

/-! ## Claims -/

/-- C1: For every header that was present in the segment at build time, the
provider operation header(hash) — hash-keyed lookup via row_by_key followed by
decompress/decode — returns Some of that header, and the returned header's
recomputed canonical hash (hash_slow) equals the queried hash. -/
theorem C1_header_hash_then_verify (hdrs : List (Header × Nat))
    (sh : SegmentHeader) (h : Header) (td : Nat)
    (hmem : (h, td) ∈ hdrs) (hnd : (headerKeys hdrs).Nodup) :
    ∃ h', SnapshotProvider.header ⟨buildHeaderJar hdrs sh⟩ (Header.hashSlow h)
        = .ok (some h') ∧ h' = h ∧ Header.hashSlow h' = Header.hashSlow h := by
  refine ⟨h, ?_, rfl, rfl⟩
  have hkmem : Header.hashSlow h ∈ hdrs.map (fun p => Header.hashSlow p.1) :=
    List.mem_map_of_mem _ hmem
  have hfilter : memKey (hdrs.map (fun p => Header.hashSlow p.1))
      (Header.hashSlow h) = true := memKey_of_mem _ _ hkmem
  have hrow := build_lookup (fun p => [Header.encode p.1, tdEncode p.2])
    (fun p => Header.hashSlow p.1) hdrs (h, td) hmem
    (by simpa [headerKeys] using hnd)
  have ht0 : Nat.testBit 1 0 = true := by decide
  have ht1 : Nat.testBit 1 1 = false := by decide
  simp only [SnapshotProvider.header, rowByKeyWithCols, rowByNumberWithCols,
    buildHeaderJar, headerKeys, hfilter, if_true, hrow]
  simp [selectCols, ht0, ht1, header_decompress_encode]

/-- C1 witness at a concrete built segment. -/
theorem C1_witness :
    (⟨1, 7⟩, 12) ∈ hdrsW ∧ (headerKeys hdrsW).Nodup ∧
    ∃ h', SnapshotProvider.header ⟨buildHeaderJar hdrsW shW⟩
        (Header.hashSlow ⟨1, 7⟩) = .ok (some h') ∧ h' = ⟨1, 7⟩ ∧
        Header.hashSlow h' = Header.hashSlow ⟨1, 7⟩ :=
  ⟨by decide, by decide,
    C1_header_hash_then_verify hdrsW shW ⟨1, 7⟩ 12 (by decide) (by decide)⟩

/-- C2: For every hash-keyed provider operation (header, header_td,
transaction_by_hash): if the value decoded from the candidate row returned by
the filter/perfect-hash path has a recomputed canonical key different from the
queried hash — a false positive — the operation does not return that value and
does not fail hard: it returns Ok(None), treating it as not-in-this-segment. -/
theorem C2_false_positive_gives_none (p : SnapshotProvider) (k : List Nat) :
    (∀ c0 cs h, rowByKeyWithCols p.jar 0b01 2 k = .ok (some (c0 :: cs)) →
      Header.decompress c0 = .ok h → Header.hashSlow h ≠ k →
      p.header k = .ok none)
    ∧ (∀ c0 c1 cs h td,
      rowByKeyWithCols p.jar 0b11 2 k = .ok (some (c0 :: c1 :: cs)) →
      Header.decompress c0 = .ok h → tdDecompress c1 = .ok td →
      Header.hashSlow h ≠ k → p.headerTd k = .ok none)
    ∧ (∀ c0 cs t, rowByKeyWithCols p.jar 0b1 1 k = .ok (some (c0 :: cs)) →
      Transaction.decompress c0 = .ok t → (Transaction.withHash t).hash ≠ k →
      p.transactionByHash k = .ok none) := by
  refine ⟨?_, ?_, ?_⟩
  · intro c0 cs h hrow hdec hne
    simp only [SnapshotProvider.header, hrow, List.head?_cons, hdec, if_neg hne]
  · intro c0 c1 cs h td hrow hdec hdtd hne
    simp only [SnapshotProvider.headerTd, hrow, List.head?_cons, hdec,
      List.getElem?_cons_succ, List.getElem?_cons_zero, hdtd, if_neg hne]
  · intro c0 cs t hrow hdec hne
    simp only [SnapshotProvider.transactionByHash, hrow, List.head?_cons, hdec,
      if_neg hne]

/-- C2 witness on the always-colliding jar: a key whose candidate row decodes
to values with a different canonical hash yields Ok(None) from all three
operations. -/
theorem C2_witness :
    SnapshotProvider.header ⟨jarFP⟩ [0] = .ok none ∧
    SnapshotProvider.headerTd ⟨jarFP⟩ [0] = .ok none ∧
    SnapshotProvider.transactionByHash ⟨jarFPtx⟩ [0] = .ok none :=
  ⟨(C2_false_positive_gives_none ⟨jarFP⟩ [0]).1 (Header.encode ⟨0, 5⟩) []
      ⟨0, 5⟩ (by decide) (by decide) (by decide),
    (C2_false_positive_gives_none ⟨jarFP⟩ [0]).2.1 (Header.encode ⟨0, 5⟩)
      (tdEncode 5) [] ⟨0, 5⟩ 5 (by decide) (by decide) (by decide) (by decide),
    (C2_false_positive_gives_none ⟨jarFPtx⟩ [0]).2.2
      (Transaction.encode ⟨3, [7, 7]⟩) [] ⟨3, [7, 7]⟩ (by decide) (by decide)
      (by decide)⟩

/-- C3 (code-bug evaluation): for a key that is absent from the segment — the
filter reports definite absence, so the keyed cursor lookup yields no row —
header(hash) and transaction_by_hash(hash) do not return the empty result
Ok(None) as the claim and §7 require: the unwrap() of the empty row panics,
an abort. -/
theorem C3_absent_key_aborts :
    SnapshotProvider.header ⟨buildHeaderJar hdrsW shW⟩ [9, 9] = .aborted ∧
    SnapshotProvider.transactionByHash ⟨buildTxJar txsW shW⟩ [9, 9] = .aborted ∧
    rowByKeyWithCols (buildHeaderJar hdrsW shW) 0b01 2 [9, 9] = .ok none ∧
    rowByKeyWithCols (buildTxJar txsW shW) 0b1 1 [9, 9] = .ok none := by
  decide

/-- C4: header_by_number(n) for n at or above block_start (resp.
transaction_by_id(id) for id at or above tx_start) fetches exactly the row at
index n - block_start (resp. id - tx_start) via the row-by-number cursor path
and returns the value decoded from that row — with no key verification: no
hypothesis about any hash is needed. -/
theorem C4_by_number_direct_fetch (p : SnapshotProvider) (n : Nat) :
    (∀ c0 cs h, p.jar.userHeader.blockStart ≤ n →
      rowByNumberWithCols p.jar 0b01 2 (n - p.jar.userHeader.blockStart)
        = .ok (some (c0 :: cs)) →
      Header.decompress c0 = .ok h →
      p.headerByNumber n = .ok (some h))
    ∧ (∀ c0 cs t, p.jar.userHeader.txStart ≤ n →
      rowByNumberWithCols p.jar 0b1 1 (n - p.jar.userHeader.txStart)
        = .ok (some (c0 :: cs)) →
      Transaction.decompress c0 = .ok t →
      p.transactionById n = .ok (some (Transaction.withHash t))) := by
  constructor
  · intro c0 cs h hge hrow hdec
    have hsub : checkedSub n p.jar.userHeader.blockStart
        = some (n - p.jar.userHeader.blockStart) := by
      rw [checkedSub, if_pos hge]
    simp only [SnapshotProvider.headerByNumber, hsub, hrow, List.head?_cons, hdec]
  · intro c0 cs t hge hrow hdec
    have hsub : checkedSub n p.jar.userHeader.txStart
        = some (n - p.jar.userHeader.txStart) := by
      rw [checkedSub, if_pos hge]
    simp only [SnapshotProvider.transactionById, hsub, hrow, List.head?_cons, hdec]

/-- C4 witness on concrete built segments. -/
theorem C4_witness :
    SnapshotProvider.headerByNumber ⟨buildHeaderJar hdrsW shW⟩ 1
      = .ok (some ⟨1, 7⟩) ∧
    SnapshotProvider.transactionById ⟨buildTxJar txsW shW⟩ 0
      = .ok (some (Transaction.withHash ⟨3, [7, 7]⟩)) :=
  ⟨(C4_by_number_direct_fetch ⟨buildHeaderJar hdrsW shW⟩ 1).1
      (Header.encode ⟨1, 7⟩) [] ⟨1, 7⟩ (by decide) (by decide) (by decide),
    (C4_by_number_direct_fetch ⟨buildTxJar txsW shW⟩ 0).2
      (Transaction.encode ⟨3, [7, 7]⟩) [] ⟨3, [7, 7]⟩ (by decide) (by decide)
      (by decide)⟩

/-- C5 counterexample: on a built two-row segment, header_by_number for a
block number beyond the last row does not yield the empty result Ok(None) the
claim requires — it is a HeaderNotFound error. -/
theorem C5_counterexample :
    SnapshotProvider.headerByNumber ⟨buildHeaderJar hdrsW shW⟩ 10
      = .err (.headerNotFound 10) ∧
    SnapshotProvider.headerByNumber ⟨buildHeaderJar hdrsW shW⟩ 10
      ≠ .ok none := by
  decide

/-- C5 amended: for a segment with M rows and a mask that fits the column
count, a row-by-number fetch succeeds for every row index i < M and returns
the empty result (not a hard error) for i ≥ M; header_by_number(n) with n
beyond the segment's last row surfaces this as an Err(HeaderNotFound(n))
not-found error rather than the empty result Ok(None). -/
theorem C5_row_count_bounds (jar : NippyJar) (mask cols i : Nat)
    (hc : cols = jar.colCount) (hm : mask < 2 ^ cols) :
    (jar.rows.length ≤ i → rowByNumberWithCols jar mask cols i = .ok none)
    ∧ (i < jar.rows.length →
        ∃ cells, rowByNumberWithCols jar mask cols i = .ok (some cells))
    ∧ (∀ (p : SnapshotProvider) (n : Nat), p.jar.colCount = 2 →
        p.jar.userHeader.blockStart ≤ n →
        p.jar.rows.length ≤ n - p.jar.userHeader.blockStart →
        SnapshotProvider.headerByNumber p n = .err (.headerNotFound n)) := by
  refine ⟨?_, ?_, ?_⟩
  · intro hi
    rw [rowByNumberWithCols, if_neg (by omega : ¬ (cols ≠ jar.colCount)),
      if_neg (by omega : ¬ (2 ^ cols ≤ mask)),
      List.get?_eq_none.mpr hi]
  · intro hi
    refine ⟨selectCols mask (jar.rows.get ⟨i, hi⟩) 0, ?_⟩
    rw [rowByNumberWithCols, if_neg (by omega : ¬ (cols ≠ jar.colCount)),
      if_neg (by omega : ¬ (2 ^ cols ≤ mask)),
      List.get?_eq_get hi]
  · intro p n hcols hge hbeyond
    have hsub : checkedSub n p.jar.userHeader.blockStart
        = some (n - p.jar.userHeader.blockStart) := by
      rw [checkedSub, if_pos hge]
    have hnone : rowByNumberWithCols p.jar 0b01 2 (n - p.jar.userHeader.blockStart)
        = .ok none := by
      rw [rowByNumberWithCols, if_neg (by omega : ¬ ((2 : Nat) ≠ p.jar.colCount)),
        if_neg (by omega : ¬ ((2 : Nat) ^ 2 ≤ 0b01)),
        List.get?_eq_none.mpr hbeyond]
    simp only [SnapshotProvider.headerByNumber, hsub, hnone]

/-- C5 witness: both bounds and the provider-level HeaderNotFound error at a
concrete built segment. -/
theorem C5_witness :
    rowByNumberWithCols (buildHeaderJar hdrsW shW) 1 2 5 = .ok none ∧
    (∃ cells, rowByNumberWithCols (buildHeaderJar hdrsW shW) 1 2 1
      = .ok (some cells)) ∧
    SnapshotProvider.headerByNumber ⟨buildHeaderJar hdrsW shW⟩ 7
      = .err (.headerNotFound 7) :=
  ⟨(C5_row_count_bounds (buildHeaderJar hdrsW shW) 1 2 5 (by decide)
      (by decide)).1 (by decide),
    (C5_row_count_bounds (buildHeaderJar hdrsW shW) 1 2 1 (by decide)
      (by decide)).2.1 (by decide),
    (C5_row_count_bounds (buildHeaderJar hdrsW shW) 1 2 0 (by decide)
      (by decide)).2.2 ⟨buildHeaderJar hdrsW shW⟩ 7 (by decide) (by decide)
      (by decide)⟩

/-- C6: header_td(hash) fetches both jointly-stored columns in one positioned
cursor read with the two-column mask 0b11, and returns Some(td) with the total
difficulty decoded from the second column exactly when the header decoded from
the first column has recomputed hash equal to the queried hash (otherwise the
empty result). -/
theorem C6_header_td_joint_columns (p : SnapshotProvider) (k c0 c1 : List Nat)
    (cs : List (List Nat)) (h : Header) (td : Nat)
    (hrow : rowByKeyWithCols p.jar 0b11 2 k = .ok (some (c0 :: c1 :: cs)))
    (hdec : Header.decompress c0 = .ok h) (hdtd : tdDecompress c1 = .ok td) :
    p.headerTd k = if Header.hashSlow h = k then .ok (some td) else .ok none := by
  simp only [SnapshotProvider.headerTd, hrow, List.head?_cons, hdec,
    List.getElem?_cons_succ, List.getElem?_cons_zero, hdtd]

/-- C6 witness: at a concrete built segment, the matching hash returns the
stored total difficulty of that row. -/
theorem C6_witness :
    SnapshotProvider.headerTd ⟨buildHeaderJar hdrsW shW⟩
      (Header.hashSlow ⟨0, 5⟩) = .ok (some 5) := by
  rw [C6_header_td_joint_columns ⟨buildHeaderJar hdrsW shW⟩
    (Header.hashSlow ⟨0, 5⟩) (Header.encode ⟨0, 5⟩) (tdEncode 5) [] ⟨0, 5⟩ 5
    (by decide) (by decide) (by decide)]
  decide

/-- C7: decode is the exact left inverse of encode for the stored value types
of receipt.rs: from_compact(to_compact(r)) recovers every Receipt r, and RLP
decode(encode(w)) recovers every well-formed ReceiptWithBloom w (256-byte
bloom, 64-bit gas, 20-byte addresses, 32-byte topics, encoding within usize). -/
theorem C7_codec_roundtrip (r : Receipt) (w : ReceiptWithBloom)
    (hwf : WFReceipt w) :
    Receipt.fromCompact (Receipt.toCompact r) = some (r, []) ∧
    rlpDecodeReceipt (rlpEncodeReceipt w) = .ok (w, []) := by
  constructor
  · have := receipt_fromCompact_toCompact r []
    simpa using this
  · have := rlpDecodeReceipt_frame w [] hwf
    simpa using this

/-- Concrete receipt used by the C7 witness. -/
def receiptW : Receipt :=
  ⟨.eip1559, true, 777, [⟨List.replicate 20 1, [List.replicate 32 2], [5, 200]⟩]⟩

/-- Concrete receipt-with-bloom used by the C7 witness. -/
def rwbW : ReceiptWithBloom := ⟨List.replicate 256 0, receiptW⟩

set_option maxRecDepth 100000 in
/-- C7 witness: both roundtrips at concrete values. -/
theorem C7_witness :
    Receipt.fromCompact (Receipt.toCompact receiptW) = some (receiptW, []) ∧
    rlpDecodeReceipt (rlpEncodeReceipt rwbW) = .ok (rwbW, []) :=
  C7_codec_roundtrip receiptW rwbW ⟨by decide, by decide, by decide, by decide⟩

/-- C8 (code-bug evaluation): header_td_by_number and headers_range are
unimplemented placeholders that abort for every input, instead of returning
the stored total difficulty / the in-range headers as the claim (and the
spec's steady-state contract, §9) requires. -/
theorem C8_placeholder_operations_abort :
    SnapshotProvider.headerTdByNumber ⟨buildHeaderJar hdrsW shW⟩ 0 = .aborted ∧
    SnapshotProvider.headersRange ⟨buildHeaderJar hdrsW shW⟩ (0, 1) = .aborted :=
  ⟨rfl, rfl⟩

/-- C9: provider reads are deterministic functions of the immutable segment
contents and the query — two providers (each constructing its own cursor)
over the same loaded segment return identical results for identical
queries. -/
theorem C9_deterministic_reads (p1 p2 : SnapshotProvider) (k : List Nat)
    (n i : Nat) (hjar : p1.jar = p2.jar) :
    p1.header k = p2.header k ∧ p1.headerTd k = p2.headerTd k ∧
    p1.headerByNumber n = p2.headerByNumber n ∧
    p1.transactionByHash k = p2.transactionByHash k ∧
    p1.transactionById i = p2.transactionById i := by
  cases p1 with
  | mk j1 =>
    cases p2 with
    | mk j2 =>
      cases hjar
      exact ⟨rfl, rfl, rfl, rfl, rfl⟩

/-- C9 witness: two separately constructed providers over the same jar. -/
theorem C9_witness :
    SnapshotProvider.header ⟨jarFP⟩ [0] = SnapshotProvider.header ⟨jarFP⟩ [0] ∧
    SnapshotProvider.headerTd ⟨jarFP⟩ [0]
      = SnapshotProvider.headerTd ⟨jarFP⟩ [0] ∧
    SnapshotProvider.headerByNumber ⟨jarFP⟩ 0
      = SnapshotProvider.headerByNumber ⟨jarFP⟩ 0 ∧
    SnapshotProvider.transactionByHash ⟨jarFP⟩ [0]
      = SnapshotProvider.transactionByHash ⟨jarFP⟩ [0] ∧
    SnapshotProvider.transactionById ⟨jarFP⟩ 0
      = SnapshotProvider.transactionById ⟨jarFP⟩ 0 :=
  C9_deterministic_reads ⟨jarFP⟩ ⟨jarFP⟩ [0] 0 0 rfl

/-- C10: header_by_number and transaction_by_id compute the row index by an
unchecked u64 subtraction; it is well defined exactly under the precondition
n ≥ block_start (resp. id ≥ tx_start) — for a query below the segment's start
bound the operation aborts (debug overflow semantics of the unchecked
subtraction) and in particular never reaches the well-defined not-found
result. -/
theorem C10_underflow_below_start (p : SnapshotProvider) (n i : Nat) :
    (n < p.jar.userHeader.blockStart →
      p.headerByNumber n = .aborted ∧ p.headerByNumber n ≠ .ok none)
    ∧ (p.jar.userHeader.blockStart ≤ n →
      checkedSub n p.jar.userHeader.blockStart
        = some (n - p.jar.userHeader.blockStart))
    ∧ (i < p.jar.userHeader.txStart → p.transactionById i = .aborted) := by
  refine ⟨?_, ?_, ?_⟩
  · intro hlt
    have hsub : checkedSub n p.jar.userHeader.blockStart = none := by
      rw [checkedSub, if_neg (by omega)]
    constructor
    · simp only [SnapshotProvider.headerByNumber, hsub]
    · simp only [SnapshotProvider.headerByNumber, hsub]
      intro hcon
      exact RResult.noConfusion hcon
  · intro hge
    rw [checkedSub, if_pos hge]
  · intro hlt
    have hsub : checkedSub i p.jar.userHeader.txStart = none := by
      rw [checkedSub, if_neg (by omega)]
    simp only [SnapshotProvider.transactionById, hsub]

/-- Segment header starting at block and transaction 5, for the C10 witness. -/
def shW5 : SegmentHeader := ⟨5, 9, 5, 9⟩

/-- C10 witness: querying below the start bound of a concrete segment. -/
theorem C10_witness :
    (SnapshotProvider.headerByNumber ⟨buildHeaderJar hdrsW shW5⟩ 3 = .aborted ∧
      SnapshotProvider.headerByNumber ⟨buildHeaderJar hdrsW shW5⟩ 3 ≠ .ok none) ∧
    checkedSub 7 5 = some 2 ∧
    SnapshotProvider.transactionById ⟨buildHeaderJar hdrsW shW5⟩ 3 = .aborted :=
  ⟨(C10_underflow_below_start ⟨buildHeaderJar hdrsW shW5⟩ 3 3).1 (by decide),
    (C10_underflow_below_start ⟨buildHeaderJar hdrsW shW5⟩ 7 0).2.1 (by decide),
    (C10_underflow_below_start ⟨buildHeaderJar hdrsW shW5⟩ 0 3).2.2 (by decide)⟩
